import Mathlib

/-!
Verification of the NNFusion PyTorch session pipeline (src/src/python/nnfusion/session.py).

The file shallowly embeds the session module: tensor descriptors, the sample
synthesizer, contract inference, the ONNX export adapter, and the PTSession
build / bind / run protocol.  External collaborators that the repository keeps
outside src (the description, dtypes, executor and data_format modules, and
the torch library itself) are modelled from the specification, each such
definition saying so in its doc comment.  Machinery that is pure plumbing in
Python (dicts, truthiness, substring tests) is embedded executably so that
every theorem below can be evaluated on concrete inputs.
-/

set_option maxHeartbeats 1000000

namespace NNF

/-- A tensor dimension as it appears in a descriptor shape: a concrete size or
a symbolic dynamic marker (a non-integer entry of the Python shape tuple). -/
inductive Dim where
  | concrete (n : Nat)
  | dynamic (s : String)
deriving DecidableEq

/-- Modelled from the spec: the Tensor Descriptor record of the description
module (repository code not under src/): a named value's shape, element type
and optional categorical-range metadata. -/
structure IODescription where
  name : String
  shape : List Dim
  dtype : String
  num_classes : Option Nat := none
deriving DecidableEq

/-- Modelled from the spec: the Contract record of the description module
(repository code not under src/): ordered input and output descriptors. -/
structure ModelDescription where
  inputs : List IODescription
  outputs : List IODescription

/-- Scalar element values of a tensor: an integer-valued entry (also standing
for the constants the session materialises), or the exceptional NaN and
infinity values the weight scan looks for. -/
inductive Val where
  | intv (n : Int)
  | nan
  | inf
deriving DecidableEq

/-- A PyTorch tensor, shallowly embedded: concrete shape, the torch dtype
rendering (such as "torch.float32"), device placement, and element data. -/
structure PTTensor where
  shape : List Nat
  dtype : String
  device : Option String := none
  data : List Val
deriving DecidableEq

/-- A Python dict with string keys, embedded as an association list kept in
insertion order: dset overwrites an existing key in place and appends a fresh
key at the end, exactly like a Python dict assignment. -/
abbrev Dict (α : Type) : Type := List (String × α)

def dget {α : Type} : Dict α → String → Option α
  | [], _ => none
  | (a, b) :: rest, k => if a = k then some b else dget rest k

def dset {α : Type} : Dict α → String → α → Dict α
  | [], k, v => [(k, v)]
  | (a, b) :: rest, k, v => if a = k then (k, v) :: rest else (a, b) :: dset rest k v

/-- Python dict.update: assign every pair of the second dict in order. -/
def dupdate {α : Type} (d u : Dict α) : Dict α :=
  u.foldl (fun acc kv => dset acc kv.1 kv.2) d

/-- Python values appearing in codegen-flag dictionaries. -/
inductive PyVal where
  | vInt (n : Int)
  | vBool (b : Bool)
  | vStr (s : String)
  | vNone
deriving DecidableEq

/-- Python truthiness of a flag value. -/
def PyVal.truthy : PyVal → Bool
  | .vInt n => n ≠ 0
  | .vBool b => b
  | .vStr s => s ≠ ""
  | .vNone => false

/-- Truthiness of flags.get(key, False), the way the session reads its codegen
flags (an absent key reads as falsy). -/
def truthyFlag (flags : Dict PyVal) (k : String) : Bool :=
  match dget flags k with
  | some v => v.truthy
  | none => false

/-- Whether the pattern occurs at the head of the character list. -/
def headMatches : List Char → List Char → Bool
  | _, [] => true
  | [], _ :: _ => false
  | c :: cs, p :: ps => c = p && headMatches cs ps

/-- Whether the pattern occurs anywhere in the character list. -/
def containsRun : List Char → List Char → Bool
  | [], pat => pat.isEmpty
  | c :: cs, pat => headMatches (c :: cs) pat || containsRun cs pat

/-- The Python substring test: sub in s. -/
def pyIn (sub s : String) : Bool := containsRun s.data sub.data

/-- Helper for the last segment of a dot-separated string. -/
def lastDotSegment : List Char → List Char → List Char
  | [], acc => acc.reverse
  | c :: cs, acc => if c = '.' then lastDotSegment cs [] else lastDotSegment cs (c :: acc)

/-- The Python idiom str.split on a dot taking the last component. -/
def strLastDotSegment (s : String) : String := String.mk (lastDotSegment s.data [])

/-- Modelled from the spec: one entry of the str2type table of the dtypes
module (repository code not under src/): the torch dtype object (rendered as
its string form) and the canonical type string. -/
structure DTypeEntry where
  torch_type : String
  type_str : String
deriving DecidableEq

/-- Modelled from the spec: the str2type table of the dtypes module
(repository code not under src/), over the fixed numeric type set; an absent
key is a Python KeyError, hence the Option. -/
def str2type : String → Option DTypeEntry
  | "float32" => some ⟨"torch.float32", "float32"⟩
  | "float16" => some ⟨"torch.float16", "float16"⟩
  | "int32" => some ⟨"torch.int32", "int32"⟩
  | "int64" => some ⟨"torch.int64", "int64"⟩
  | _ => none

/-- Translation of tensor2desc (session.py): a descriptor with the tensor's
shape and the dtype obtained by splitting the torch dtype rendering on a dot
and looking the last segment up in str2type; the lookup can raise KeyError,
hence the Option. -/
def tensor2desc (t : PTTensor) (name : String) : Option IODescription :=
  match str2type (strLastDotSegment t.dtype) with
  | some e => some { name := name, shape := t.shape.map Dim.concrete, dtype := e.type_str }
  | none => none

/-- Number of elements of a concrete shape. -/
def numel (size : List Nat) : Nat := size.foldl (· * ·) 1

/-- Modelled from the spec: torch.ones, a tensor of the given size and dtype
filled with the constant 1. -/
def torch_ones (size : List Nat) (dtype : String) : PTTensor :=
  { shape := size, dtype := dtype, data := List.replicate (numel size) (.intv 1) }

/-- Modelled from the spec: torch.randint fills a tensor of the given size and
dtype with uniformly-random integers in the half-open range from lo to hi; the
random draws are abstracted by the explicit stream rng. -/
def torch_randint (lo hi : Int) (size : List Nat) (dtype : String) (rng : Nat → Nat) : PTTensor :=
  { shape := size, dtype := dtype,
    data := (List.range (numel size)).map fun i => .intv (lo + (rng i : Int) % (hi - lo)) }

/-- Modelled from the spec: tensor placement on a device (functional for
tensors, unlike modules). -/
def PTTensor.to (t : PTTensor) (device : Option String) : PTTensor := { t with device := device }

/-- Python truthiness of the optional num_classes field: None and 0 are
falsy. -/
def truthyNumClasses : Option Nat → Bool
  | none => false
  | some n => n ≠ 0

/-- Translation of generate_sample (session.py): synthesize a placeholder
value for a descriptor, replacing each non-integer (dynamic) dimension by 1;
a descriptor with truthy num_classes is filled by torch.randint over the range
from 0 to num_classes, the rest by torch.ones; the str2type lookup can raise
KeyError, hence the Option. -/
def generate_sample (desc : IODescription) (device : Option String) (rng : Nat → Nat) :
    Option PTTensor :=
  let size := desc.shape.map fun s => match s with | .concrete n => n | .dynamic _ => 1
  if truthyNumClasses desc.num_classes then
    match desc.num_classes, str2type desc.dtype with
    | some nc, some e => some ((torch_randint 0 (nc : Int) size e.torch_type rng).to device)
    | _, _ => none
  else
    match str2type desc.dtype with
    | some e => some ((torch_ones size e.torch_type).to device)
    | none => none

/-- A Python comprehension over a fallible element operation: the first
KeyError aborts the whole comprehension. -/
def mapOpt {α β : Type} (f : α → Option β) : List α → Option (List β)
  | [] => some []
  | a :: rest =>
    match f a with
    | none => none
    | some b =>
      match mapOpt f rest with
      | none => none
      | some bs => some (b :: bs)

/-- A model's forward result: a bare tensor or a tuple of tensors. -/
inductive ModelOut where
  | single (t : PTTensor)
  | tuple (ts : List PTTensor)

/-- The tuple the session works with after the isinstance check on a bare
tensor result. -/
def tupleOfOut : ModelOut → List PTTensor
  | .single t => [t]
  | .tuple ts => ts

/-- Modelled from the spec: the external model (a torch module): device
placement, a forward function, and named parameter and buffer dictionaries.
Mutation of the module (its in-place device move) is rendered by explicit
state passing of the module value. -/
structure PyModel where
  device : String
  forward : List PTTensor → ModelOut
  named_parameters : Dict PTTensor := []
  named_buffers : Dict PTTensor := []

/-- copy.deepcopy of a model: an independent, structurally equal snapshot; in
the explicit-state embedding the snapshot is the same value, and mutations of
the snapshot are never written back to the original. -/
def deepcopy (m : PyModel) : PyModel := m

/-- Modelled from the spec: a torch module's device move mutates the module in
place and returns the same, now mutated, module; the embedding threads the
mutated value explicitly wherever the Python object keeps being used. -/
def moduleTo (m : PyModel) (device : String) : PyModel := { m with device := device }

/-- Translation of generate_output_desc (session.py): synthesize one sample
per input descriptor, run a deep copy of the model on them once, and wrap each
resulting tensor as an output descriptor named by positional index.  The
returned pair carries the final state of the caller's model object, which this
function never mutates (only the deep copy is moved to the device). -/
def generate_output_desc (model : PyModel) (input_desc : List IODescription) (device : String)
    (rng : Nat → Nat) : Option (PyModel × List IODescription) :=
  match mapOpt (fun d => generate_sample d (some device) rng) input_desc with
  | none => none
  | some fake_inputs =>
    match mapOpt (fun it => tensor2desc it.2 ("output_" ++ toString it.1))
        (tupleOfOut ((moduleTo (deepcopy model) device).forward fake_inputs)).enum with
    | none => none
    | some descs => some (model, descs)

/-- The arguments the torch onnx export call receives, recorded for
inspection: notably the model object handed to the exporter. -/
structure ExportRecord where
  exported_model : PyModel
  file_name : String
  input_names : List String
  output_names : List String
  sample_inputs : List PTTensor
  sample_outputs : List PTTensor
  do_constant_folding : Bool

/-- Translation of convert_model_to_onnx (session.py): move the caller's model
to the device in place, synthesize example inputs and outputs, and invoke the
external exporter on a deep copy of the (already moved) model; returns the
final state of the caller's model object together with the export call
record. -/
def convert_model_to_onnx (model : PyModel) (model_desc : ModelDescription) (device : String)
    (file_name : String) (const_folding : Bool) (rng : Nat → Nat) :
    Option (PyModel × ExportRecord) :=
  match mapOpt (fun d => generate_sample d (some device) rng) model_desc.inputs with
  | none => none
  | some sample_inputs =>
    match mapOpt (fun d => generate_sample d (some device) rng) model_desc.outputs with
    | none => none
    | some sample_outputs =>
      some (moduleTo model device,
        { exported_model := deepcopy (moduleTo model device), file_name := file_name,
          input_names := model_desc.inputs.map IODescription.name,
          output_names := model_desc.outputs.map IODescription.name,
          sample_inputs := sample_inputs, sample_outputs := sample_outputs,
          do_constant_folding := const_folding })

/-- A live buffer reference in the Binding Table: a model weight buffer
wrapped by cast_pytorch_tensor (the data_format module, repository code not
under src/, modelled from the spec as a zero-copy wrapper around the live
buffer), a caller-fed buffer identified by an external id, or one of the
session-owned output buffers identified by its allocation index. -/
inductive BufRef where
  | weightBuf (name : String)
  | extBuf (id : Nat)
  | outBuf (id : Nat)
deriving DecidableEq

/-- The exceptions session construction and run can raise, each constructor
carrying exactly the values its Python message interpolates.  The
outDtypeAssert constructor carries two shapes because the source message for
an output dtype mismatch interpolates shapes (taken from the inputs dict),
not dtypes. -/
inductive SErr where
  | formatUnsupported (fmt : String)
  | cpuUnsupported
  | rocmUnsupported
  | unknownDevice (dev : String)
  | mutualExclusion
  | dtypeLookupFailed
  | duplicateInput (name : String)
  | missingInput (name : String)
  | inShapeAssert (name : String) (nnfShape sessShape : List Dim)
  | inDtypeAssert (name : String) (nnfDtype sessDtype : String)
  | externResultMemory
  | missingOutput (name : String)
  | outShapeAssert (name : String) (nnfShape reportedShape : List Dim)
  | outDtypeAssert (name : String) (nnfShape reportedShape : List Dim)
  | keyError (name : String)
  | nanFound
deriving DecidableEq

/-- Modelled from the spec: the artifact runtime handle's declared contract,
as the executor module (repository code not under src/) returns it from
get_inputs and get_outputs. -/
structure ArtifactContract where
  inputs : List IODescription
  outputs : List IODescription

/-- The session state after a successful build: the input binding table
(None marks a slot the first run call must supply), the output buffer table,
the output buffer contents, the caller's declared output contract, and the
live weight dictionary. -/
structure Session where
  inputs : Dict (Option BufRef)
  outputs : Dict BufRef
  contents : Dict Int
  output_desc : List IODescription
  torch_weights : Dict PTTensor
deriving DecidableEq

/-- The constructor arguments of PTSession that the embedding needs. -/
structure SessionConfig where
  input_desc : List IODescription
  output_desc : Option (List IODescription) := none
  device : String
  model_format : String := "onnx"
  const_folding : Bool := false
  build_nnf : Bool := true
  codegen_flags : Option (Dict PyVal) := none

/-- The external-process invocations session construction performs, in order:
the exporter call, the codegen command, the generated-source patch command,
and the cmake and make build commands. -/
inductive Event where
  | exportModel
  | codegenRun
  | patchRt
  | buildRun
deriving DecidableEq

/-- Translation of the torch weight gathering in PTSession init: the named
parameters dict updated by the named buffers dict. -/
def modelWeights (m : PyModel) : Dict PTTensor :=
  dupdate (dupdate [] m.named_parameters) m.named_buffers

/-- Translation of the codegen-flag assembly: the default dict carrying
extern_result_memory set to 1, updated by the caller's flags (or by the empty
dict when none are given). -/
def effFlags (cfg : SessionConfig) : Dict PyVal :=
  dupdate [("extern_result_memory", .vInt 1)] (cfg.codegen_flags.getD [])

/-- Translation of the training-mode weight injection in _create_executor:
each weight is added to the real-inputs dict after asserting its name absent
(a duplicate name is a fatal error); a tensor2desc KeyError propagates. -/
def addWeights (d : Dict IODescription) : Dict PTTensor → Except SErr (Dict IODescription)
  | [] => .ok d
  | (n, t) :: rest =>
    if (dget d n).isSome then .error (.duplicateInput n)
    else
      match tensor2desc t n with
      | some desc => addWeights (dset d n desc) rest
      | none => .error .dtypeLookupFailed

/-- The dict comprehension keying descriptors by name. -/
def dictOfDescs (descs : List IODescription) : Dict IODescription :=
  descs.foldl (fun d desc => dset d desc.name desc) []

/-- The caller input-contract union the artifact's declared inputs are bound
against: the session input descriptors, extended with the weight descriptors
when training mode is on. -/
def realInputsFor (input_desc : List IODescription) (weights : Dict PTTensor) (training : Bool) :
    Except SErr (Dict IODescription) :=
  if training then addWeights (dictOfDescs input_desc) weights
  else .ok (dictOfDescs input_desc)

/-- Translation of the input-binding loop in _create_executor: each
artifact-declared input must be present in the real-inputs dict with exactly
matching shape and dtype (asserted in that order); weight-named inputs are
bound to the live weight buffer, all others start unbound. -/
def bindInputs (real_inputs : Dict IODescription) (weights : Dict PTTensor)
    (tbl : Dict (Option BufRef)) : List IODescription → Except SErr (Dict (Option BufRef))
  | [] => .ok tbl
  | desc :: rest =>
    match dget real_inputs desc.name with
    | none => .error (.missingInput desc.name)
    | some r =>
      if desc.shape = r.shape then
        if desc.dtype = r.dtype then
          if (dget weights desc.name).isSome then
            bindInputs real_inputs weights (dset tbl desc.name (some (.weightBuf desc.name))) rest
          else
            bindInputs real_inputs weights (dset tbl desc.name none) rest
        else .error (.inDtypeAssert desc.name desc.dtype r.dtype)
      else .error (.inShapeAssert desc.name desc.shape r.shape)

/-- The output-shape assertion message of _create_executor: the source
interpolates the shape found in real_inputs under the output name (not in
real_outputs), so building the message itself raises KeyError whenever the
output name is not also an input name. -/
def outputShapeErr (real_inputs : Dict IODescription) (desc : IODescription) : SErr :=
  match dget real_inputs desc.name with
  | none => .keyError desc.name
  | some d => .outShapeAssert desc.name desc.shape d.shape

/-- The output-dtype assertion message of _create_executor: the source again
interpolates shapes taken from real_inputs under the output name, so the
dtype mismatch message reports shapes from the inputs dict and can raise
KeyError. -/
def outputDtypeErr (real_inputs : Dict IODescription) (desc : IODescription) : SErr :=
  match dget real_inputs desc.name with
  | none => .keyError desc.name
  | some d => .outDtypeAssert desc.name desc.shape d.shape

/-- Translation of the output-binding loop in _create_executor: outside
training mode each artifact output must appear in the session output dict;
when present there, shape and dtype must match exactly (with the faulty
messages above); each artifact output then receives a freshly allocated
zero-initialized buffer, allocation indices following declaration order; the
torch.zeros dtype lookup can raise KeyError. -/
def bindOutputs (training : Bool) (real_inputs real_outputs : Dict IODescription)
    (tbl : Dict BufRef) (idx : Nat) : List IODescription → Except SErr (Dict BufRef)
  | [] => .ok tbl
  | desc :: rest =>
    if !training && (dget real_outputs desc.name).isNone then
      .error (.missingOutput desc.name)
    else
      match dget real_outputs desc.name with
      | some ro =>
        if desc.shape = ro.shape then
          if desc.dtype = ro.dtype then
            if (str2type desc.dtype).isNone then .error .dtypeLookupFailed
            else
              bindOutputs training real_inputs real_outputs
                (dset tbl desc.name (.outBuf idx)) (idx + 1) rest
          else .error (outputDtypeErr real_inputs desc)
        else .error (outputShapeErr real_inputs desc)
      | none =>
        if (str2type desc.dtype).isNone then .error .dtypeLookupFailed
        else
          bindOutputs training real_inputs real_outputs
            (dset tbl desc.name (.outBuf idx)) (idx + 1) rest

/-- The zero-initialized contents of the freshly allocated output buffers. -/
def initContents (tbl : Dict BufRef) : Dict Int := tbl.map fun kv => (kv.1, 0)

/-- Translation of _create_executor: device dispatch, the codegen, patch and
build external steps when building is enabled, artifact contract discovery,
training-mode input union construction, input binding, the
extern_result_memory gate, and output binding with buffer allocation; paired
with the external-process events the call emitted. -/
def createExecutor (cfg : SessionConfig) (flags : Dict PyVal) (artifact : ArtifactContract)
    (weights : Dict PTTensor) (od : List IODescription) : List Event × Except SErr Session :=
  if pyIn "cuda" cfg.device then
    ((if cfg.build_nnf then [Event.codegenRun, Event.patchRt, Event.buildRun] else []),
     match realInputsFor cfg.input_desc weights (truthyFlag flags "training_mode") with
     | .error e => .error e
     | .ok real_inputs =>
       match bindInputs real_inputs weights [] artifact.inputs with
       | .error e => .error e
       | .ok inTbl =>
         if !truthyFlag flags "extern_result_memory" then .error .externResultMemory
         else
           match bindOutputs (truthyFlag flags "training_mode") real_inputs (dictOfDescs od)
               [] 0 artifact.outputs with
           | .error e => .error e
           | .ok outTbl =>
             .ok { inputs := inTbl, outputs := outTbl, contents := initContents outTbl,
                   output_desc := od, torch_weights := weights })
  else if pyIn "cpu" cfg.device then ([], .error .cpuUnsupported)
  else if pyIn "rocm" cfg.device then ([], .error .rocmUnsupported)
  else ([], .error (.unknownDevice cfg.device))

/-- The output-contract step of PTSession init: the caller's declared output
contract when given, otherwise contract inference by running the model. -/
def outputDescStep (model : PyModel) (cfg : SessionConfig) (rng : Nat → Nat) :
    Except SErr (List IODescription) :=
  match cfg.output_desc with
  | some od => .ok od
  | none =>
    match generate_output_desc model cfg.input_desc cfg.device rng with
    | some p => .ok p.2
    | none => .error .dtypeLookupFailed

/-- The export step of PTSession init: when building is enabled, run
convert_model_to_onnx and emit the exporter event; a failure while
synthesizing the example tensors raises before the exporter is reached. -/
def exportStepResult (model : PyModel) (cfg : SessionConfig) (od : List IODescription)
    (rng : Nat → Nat) : List Event × Except SErr Unit :=
  if cfg.build_nnf then
    match convert_model_to_onnx model ⟨cfg.input_desc, od⟩ cfg.device "nnf.onnx"
        cfg.const_folding rng with
    | some _ => ([Event.exportModel], .ok ())
    | none => ([], .error .dtypeLookupFailed)
  else ([], .ok ())

/-- Translation of PTSession init: the model-format gate, weight gathering,
the output contract step, the export step, codegen-flag assembly, the
training-mode and constant-folding mutual-exclusion gate, and executor
creation; paired with the external-process events emitted before the call
finished or raised. -/
def sessionInit (model : PyModel) (cfg : SessionConfig) (artifact : ArtifactContract)
    (rng : Nat → Nat) : List Event × Except SErr Session :=
  if cfg.model_format ≠ "onnx" then ([], .error (.formatUnsupported cfg.model_format))
  else
    match outputDescStep model cfg rng with
    | .error e => ([], .error e)
    | .ok od =>
      match exportStepResult model cfg od rng with
      | (ev1, .error e) => (ev1, .error e)
      | (ev1, .ok _) =>
        if truthyFlag (effFlags cfg) "training_mode" && cfg.const_folding then
          (ev1, .error .mutualExclusion)
        else
          (ev1 ++ (createExecutor cfg (effFlags cfg) artifact (modelWeights model) od).1,
           (createExecutor cfg (effFlags cfg) artifact (modelWeights model) od).2)

/-- Translation of the feed loop of run_by_nnf: every fed name that is a key
of the input binding table has its slot overwritten with the fed buffer;
unknown names are silently ignored. -/
def feedInputs (tbl : Dict (Option BufRef)) : Dict Nat → Dict (Option BufRef)
  | [] => tbl
  | (n, v) :: rest =>
    feedInputs (if (dget tbl n).isSome then dset tbl n (some (.extBuf v)) else tbl) rest

/-- Modelled from the spec: the artifact's execution entry point mutates every
bound output buffer in place with the artifact's results; the numeric results
are abstracted by the function execF from the current input bindings and the
output name. -/
def executorInvoke (execF : Dict (Option BufRef) → String → Int)
    (inputs : Dict (Option BufRef)) (outputs : Dict BufRef) (contents : Dict Int) : Dict Int :=
  outputs.foldl (fun c kv => dset c kv.1 (execF inputs kv.1)) contents

/-- The per-weight test of is_weights_nan: any NaN entry or any infinite
entry. -/
def tensorHasNanOrInf (t : PTTensor) : Bool :=
  t.data.any (fun v => v = .nan) || t.data.any (fun v => v = .inf)

/-- Translation of is_weights_nan (session.py): scan every weight in order
without short-circuiting, log each offending name, and return whether any
weight held a NaN or infinity; the log is returned alongside the flag. -/
def is_weights_nan (weights : Dict PTTensor) : List String × Bool :=
  weights.foldl
    (fun acc nw => if tensorHasNanOrInf nw.2 then (acc.1 ++ [nw.1], true) else acc)
    ([], false)

/-- The result extraction of run_by_nnf: the output buffers in the caller
contract's declared output order; a name the artifact never allocated a
buffer for raises KeyError. -/
def gatherOutputs (outputs : Dict BufRef) : List IODescription → Except SErr (List BufRef)
  | [] => .ok []
  | d :: rest =>
    match dget outputs d.name with
    | none => .error (.keyError d.name)
    | some b =>
      match gatherOutputs outputs rest with
      | .ok l => .ok (b :: l)
      | .error e => .error e

/-- Translation of run_by_nnf (session.py): rebind each fed name that is a
known input slot, invoke the artifact on the current binding table (mutating
the output buffer contents in place), optionally scan the weights for NaN or
infinity, raising after the invocation when the scan is positive, and return
the output buffers in declared output order.  The second component pairs the
scan log with the call outcome. -/
def run_by_nnf (s : Session) (execF : Dict (Option BufRef) → String → Int) (feed : Dict Nat)
    (check_nan : Bool) : Session × (List String × Except SErr (List BufRef)) :=
  let inputs' := feedInputs s.inputs feed
  let contents' := executorInvoke execF inputs' s.outputs s.contents
  let s' : Session := { s with inputs := inputs', contents := contents' }
  let scan := if check_nan then is_weights_nan s.torch_weights else ([], false)
  if check_nan && scan.2 then (s', (scan.1, .error .nanFound))
  else (s', (scan.1, gatherOutputs s.outputs s.output_desc))

/-- The identity model: its forward returns its inputs unchanged. -/
def identityModel (device : String) : PyModel :=
  { device := device, forward := fun ts => .tuple ts }

/-- The binding the input loop gives a validated artifact input: the live
weight buffer when the name is a weight name, otherwise an empty slot. -/
def expectedBind (weights : Dict PTTensor) (n : String) : Option BufRef :=
  if (dget weights n).isSome then some (.weightBuf n) else none

/-- The output-buffer allocation sequence of a successful output binding:
one buffer per artifact output, allocation indices in declaration order. -/
def allocFold (tbl : Dict BufRef) (idx : Nat) : List IODescription → Dict BufRef
  | [] => tbl
  | d :: rest => allocFold (dset tbl d.name (.outBuf idx)) (idx + 1) rest

/-- Whether a descriptor shape is the exact image of a concrete tensor shape,
the reading of a shape matching a descriptor exactly. -/
def shapeMatchesExactly (ds : List Dim) (ns : List Nat) : Bool :=
  ds = ns.map Dim.concrete

/-- Whether every dimension of a descriptor shape is concrete. -/
def allConcrete (ds : List Dim) : Bool :=
  ds.all fun d => match d with | .concrete _ => true | .dynamic _ => false

section Fixtures

/-- A deterministic stand-in for the random stream of the concrete checks. -/
def rngA : Nat → Nat := fun i => 5 * i + 7

def descX : IODescription := { name := "x", shape := [Dim.concrete 2, Dim.concrete 3], dtype := "float32" }

def descY : IODescription := { name := "y", shape := [Dim.concrete 2, Dim.concrete 3], dtype := "float32" }

def descW : IODescription := { name := "w", shape := [Dim.concrete 2, Dim.concrete 3], dtype := "float32" }

/-- A descriptor with a symbolic (dynamic) batch dimension. -/
def descDyn : IODescription := { name := "x", shape := [Dim.dynamic "N"], dtype := "float32" }

/-- A categorical descriptor with three classes. -/
def descCls : IODescription :=
  { name := "labels", shape := [Dim.concrete 4], dtype := "int64", num_classes := some 3 }

def descY2 : IODescription := { name := "y", shape := [Dim.concrete 2], dtype := "float32" }

def descY3 : IODescription := { name := "y", shape := [Dim.concrete 3], dtype := "float32" }

def modelA : PyModel := { device := "cpu", forward := fun ts => .tuple ts }

def weightW : PTTensor :=
  { shape := [2, 3], dtype := "torch.float32", data := List.replicate 6 (.intv 0) }

/-- A model owning one parameter named w. -/
def modelW : PyModel :=
  { device := "cpu", forward := fun ts => .tuple ts, named_parameters := [("w", weightW)] }

def artEmpty : ArtifactContract := { inputs := [], outputs := [] }

/-- The session configuration that overrides extern_result_memory to 0. -/
def cfgExtern : SessionConfig :=
  { input_desc := [], output_desc := some [], device := "cuda:0",
    codegen_flags := some [("extern_result_memory", PyVal.vInt 0)] }

/-- The session configuration enabling training mode and constant folding
together. -/
def cfgFold : SessionConfig :=
  { input_desc := [], output_desc := some [], device := "cuda:0",
    const_folding := true, codegen_flags := some [("training_mode", PyVal.vInt 1)] }

/-- A caller contract whose output y disagrees with the artifact's shape,
while y is not an input name. -/
def cfgMismatch : SessionConfig :=
  { input_desc := [descX], output_desc := some [descY2], device := "cuda:0", build_nnf := false }

def artMismatch : ArtifactContract := { inputs := [descX], outputs := [descY3] }

/-- A well-formed session over one plain input, one weight input and one
output. -/
def cfgRun : SessionConfig :=
  { input_desc := [descX, descW], output_desc := some [descY], device := "cuda:0",
    build_nnf := false }

def artRun : ArtifactContract := { inputs := [descX, descW], outputs := [descY] }

/-- An abstract artifact computation for the concrete run checks. -/
def execFA : Dict (Option BufRef) → String → Int := fun _ _ => 9

def weightNan : PTTensor := { shape := [1], dtype := "torch.float32", data := [.nan] }

def weightInf : PTTensor := { shape := [2], dtype := "torch.float32", data := [.intv 3, .inf] }

def weightFin : PTTensor := { shape := [1], dtype := "torch.float32", data := [.intv 3] }

/-- The session state executor creation produces for cfgRun and artRun. -/
def sessRun : Session :=
  { inputs := [("x", none), ("w", some (.weightBuf "w"))],
    outputs := [("y", .outBuf 0)],
    contents := [("y", 0)],
    output_desc := [descY],
    torch_weights := [("w", weightW)] }

/-- A ready session whose weight set holds one NaN and one infinite buffer. -/
def sessNan : Session :=
  { inputs := [], outputs := [("y", .outBuf 0)], contents := [("y", 0)],
    output_desc := [descY],
    torch_weights := [("a", weightNan), ("b", weightFin), ("c", weightInf)] }

/-- The output contract a run of the identity model infers for a caller
contract: one descriptor per input, named by positional index, carrying the
input's shape and dtype. -/
def expectedOutputs (input_desc : List IODescription) : List IODescription :=
  input_desc.enum.map fun it =>
    { name := "output_" ++ toString it.1, shape := it.2.shape, dtype := it.2.dtype,
      num_classes := none }

end Fixtures

instance {ε α : Type} [DecidableEq ε] [DecidableEq α] : DecidableEq (Except ε α) := fun x y =>
  match x, y with
  | .ok u, .ok v => if h : u = v then isTrue (by simp [h]) else isFalse (by simp [h])
  | .error u, .error v => if h : u = v then isTrue (by simp [h]) else isFalse (by simp [h])
  | .ok _, .error _ => isFalse (by simp)
  | .error _, .ok _ => isFalse (by simp)

theorem dget_dset {α : Type} (d : Dict α) (k : String) (v : α) (k' : String) :
    dget (dset d k v) k' = if k' = k then some v else dget d k' := by
  induction d with
  | nil =>
    rcases eq_or_ne k' k with h | h
    · simp [dset, dget, h]
    · simp [dset, dget, h, Ne.symm h]
  | cons hd tl ih =>
    obtain ⟨a, b⟩ := hd
    rcases eq_or_ne a k with hak | hak
    · rcases eq_or_ne k' k with h | h
      · simp [dset, dget, hak, h]
      · simp [dset, dget, hak, h, Ne.symm h]
    · rcases eq_or_ne a k' with h | h
      · have hk : k' ≠ k := fun hh => hak (h.trans hh)
        simp [dset, dget, hak, h, hk, ih]
      · simp [dset, dget, hak, h, ih]

theorem dget_foldl_dset_isSome (ds : List IODescription) (d0 : Dict IODescription) (n : String) :
    (dget (ds.foldl (fun d desc => dset d desc.name desc) d0) n).isSome ↔
      (dget d0 n).isSome ∨ n ∈ ds.map IODescription.name := by
  induction ds generalizing d0 with
  | nil => simp
  | cons hd tl ih =>
    simp only [List.foldl_cons, List.map_cons, List.mem_cons]
    rw [ih, dget_dset]
    by_cases h : n = hd.name <;> simp [h, or_assoc]

theorem dget_dictOfDescs_isSome (ds : List IODescription) (n : String) :
    (dget (dictOfDescs ds) n).isSome ↔ n ∈ ds.map IODescription.name := by
  have := dget_foldl_dset_isSome ds [] n
  simpa [dictOfDescs, dget] using this

theorem addWeights_isSome (ws : Dict PTTensor) (d r : Dict IODescription)
    (h : addWeights d ws = .ok r) (n : String) :
    (dget r n).isSome ↔ ((dget d n).isSome ∨ n ∈ ws.map Prod.fst) := by
  induction ws generalizing d with
  | nil =>
    simp only [addWeights, Except.ok.injEq] at h
    subst h
    simp
  | cons hd tl ih =>
    obtain ⟨wn, wt⟩ := hd
    simp only [addWeights] at h
    by_cases hdup : (dget d wn).isSome
    · simp [hdup] at h
    · rw [if_neg hdup] at h
      cases h2 : tensor2desc wt wn with
      | none => rw [h2] at h; cases h
      | some desc =>
        rw [h2] at h
        rw [ih _ h, dget_dset]
        by_cases hn : n = wn <;> simp [hn, or_assoc]

/-- Names present in the real-inputs union a successful construction
yields: the session inputs, plus the weight names in training mode. -/
theorem realInputsFor_names (input_desc : List IODescription) (weights : Dict PTTensor)
    (training : Bool) (real : Dict IODescription)
    (h : realInputsFor input_desc weights training = .ok real) (n : String) :
    (dget real n).isSome ↔
      (n ∈ input_desc.map IODescription.name ∨
        (training = true ∧ n ∈ weights.map Prod.fst)) := by
  unfold realInputsFor at h
  cases training with
  | false =>
    simp only [Bool.false_eq_true, if_false, Except.ok.injEq] at h
    subst h
    simp [dget_dictOfDescs_isSome]
  | true =>
    rw [if_pos rfl] at h
    rw [addWeights_isSome _ _ _ h n, dget_dictOfDescs_isSome]
    simp

theorem bindInputs_ok_iff (real : Dict IODescription) (w : Dict PTTensor)
    (tbl : Dict (Option BufRef)) (nnf : List IODescription) :
    (∃ t, bindInputs real w tbl nnf = .ok t) ↔
      ∀ d ∈ nnf, ∃ r, dget real d.name = some r ∧ d.shape = r.shape ∧ d.dtype = r.dtype := by
  induction nnf generalizing tbl with
  | nil => simp [bindInputs]
  | cons hd tl ih =>
    simp only [bindInputs, List.mem_cons]
    cases hr : dget real hd.name with
    | none =>
      dsimp only
      constructor
      · rintro ⟨t, ht⟩; cases ht
      · intro hall
        obtain ⟨r, hr2, -⟩ := hall hd (Or.inl rfl)
        rw [hr] at hr2; cases hr2
    | some r =>
      dsimp only
      by_cases hs : hd.shape = r.shape
      · by_cases hdt : hd.dtype = r.dtype
        · rw [if_pos hs, if_pos hdt]
          by_cases hw : (dget w hd.name).isSome
          · rw [if_pos hw, ih]
            constructor
            · intro hall d hd2
              rcases hd2 with h | h
              · exact h ▸ ⟨r, hr, hs, hdt⟩
              · exact hall d h
            · intro hall d hd2; exact hall d (Or.inr hd2)
          · rw [if_neg hw, ih]
            constructor
            · intro hall d hd2
              rcases hd2 with h | h
              · exact h ▸ ⟨r, hr, hs, hdt⟩
              · exact hall d h
            · intro hall d hd2; exact hall d (Or.inr hd2)
        · rw [if_pos hs, if_neg hdt]
          constructor
          · rintro ⟨t, ht⟩; cases ht
          · intro hall
            obtain ⟨r2, hr2, -, hdt2⟩ := hall hd (Or.inl rfl)
            rw [hr] at hr2
            cases hr2
            exact absurd hdt2 hdt
      · rw [if_neg hs]
        constructor
        · rintro ⟨t, ht⟩; cases ht
        · intro hall
          obtain ⟨r2, hr2, hs2, -⟩ := hall hd (Or.inl rfl)
          rw [hr] at hr2
          cases hr2
          exact absurd hs2 hs

theorem bindInputs_error_char (real : Dict IODescription) (w : Dict PTTensor)
    (tbl : Dict (Option BufRef)) (nnf : List IODescription) (e : SErr)
    (h : bindInputs real w tbl nnf = .error e) :
    ∃ d ∈ nnf,
      (dget real d.name = none ∧ e = .missingInput d.name) ∨
      ∃ r, dget real d.name = some r ∧
        ((d.shape ≠ r.shape ∧ e = .inShapeAssert d.name d.shape r.shape) ∨
         (d.shape = r.shape ∧ d.dtype ≠ r.dtype ∧
           e = .inDtypeAssert d.name d.dtype r.dtype)) := by
  induction nnf generalizing tbl with
  | nil => cases h
  | cons hd tl ih =>
    simp only [bindInputs] at h
    cases hr : dget real hd.name with
    | none =>
      rw [hr] at h
      simp only at h
      cases h
      exact ⟨hd, List.mem_cons_self _ _, Or.inl ⟨hr, rfl⟩⟩
    | some r =>
      rw [hr] at h
      simp only at h
      by_cases hs : hd.shape = r.shape
      · by_cases hdt : hd.dtype = r.dtype
        · rw [if_pos hs, if_pos hdt] at h
          by_cases hw : (dget w hd.name).isSome
          · rw [if_pos hw] at h
            obtain ⟨d, hd2, hcase⟩ := ih _ h
            exact ⟨d, List.mem_cons_of_mem _ hd2, hcase⟩
          · rw [if_neg hw] at h
            obtain ⟨d, hd2, hcase⟩ := ih _ h
            exact ⟨d, List.mem_cons_of_mem _ hd2, hcase⟩
        · rw [if_pos hs, if_neg hdt] at h
          cases h
          exact ⟨hd, List.mem_cons_self _ _, Or.inr ⟨r, hr, Or.inr ⟨hs, hdt, rfl⟩⟩⟩
      · rw [if_neg hs] at h
        cases h
        exact ⟨hd, List.mem_cons_self _ _, Or.inr ⟨r, hr, Or.inl ⟨hs, rfl⟩⟩⟩

/-- An extra caller input whose name the artifact never declares does not
change the outcome of input binding. -/
theorem bindInputs_unconsumed (real : Dict IODescription) (w : Dict PTTensor)
    (tbl : Dict (Option BufRef)) (nnf : List IODescription) (x : IODescription)
    (hx : x.name ∉ nnf.map IODescription.name) :
    bindInputs (dset real x.name x) w tbl nnf = bindInputs real w tbl nnf := by
  induction nnf generalizing tbl with
  | nil => rfl
  | cons hd tl ih =>
    simp only [List.map_cons, List.mem_cons, not_or] at hx
    obtain ⟨hx1, hx2⟩ := hx
    have hne : hd.name ≠ x.name := fun hh => hx1 hh.symm
    simp only [bindInputs, dget_dset, if_neg hne]
    cases dget real hd.name with
    | none => rfl
    | some r =>
      dsimp only
      by_cases hs : hd.shape = r.shape
      · by_cases hdt : hd.dtype = r.dtype
        · rw [if_pos hs, if_pos hdt, if_pos hs, if_pos hdt]
          by_cases hw : (dget w hd.name).isSome
          · rw [if_pos hw, ih _ hx2, if_pos hw]
          · rw [if_neg hw, ih _ hx2, if_neg hw]
        · rw [if_pos hs, if_neg hdt, if_pos hs, if_neg hdt]
      · rw [if_neg hs, if_neg hs]

theorem bindInputs_frame (real : Dict IODescription) (w : Dict PTTensor)
    (tbl t : Dict (Option BufRef)) (nnf : List IODescription)
    (h : bindInputs real w tbl nnf = .ok t) (k : String)
    (hk : k ∉ nnf.map IODescription.name) :
    dget t k = dget tbl k := by
  induction nnf generalizing tbl with
  | nil => cases h; rfl
  | cons hd tl ih =>
    simp only [List.map_cons, List.mem_cons, not_or] at hk
    obtain ⟨hk1, hk2⟩ := hk
    simp only [bindInputs] at h
    cases hr : dget real hd.name with
    | none => rw [hr] at h; simp only at h; cases h
    | some r =>
      rw [hr] at h
      simp only at h
      by_cases hs : hd.shape = r.shape
      · by_cases hdt : hd.dtype = r.dtype
        · rw [if_pos hs, if_pos hdt] at h
          by_cases hw : (dget w hd.name).isSome
          · rw [if_pos hw] at h
            rw [ih _ h hk2, dget_dset, if_neg hk1]
          · rw [if_neg hw] at h
            rw [ih _ h hk2, dget_dset, if_neg hk1]
        · rw [if_pos hs, if_neg hdt] at h; cases h
      · rw [if_neg hs] at h; cases h

/-- The value a successful input binding records for every artifact-declared
input: the live weight buffer for weight names, an empty slot otherwise. -/
theorem bindInputs_values (real : Dict IODescription) (w : Dict PTTensor)
    (nnf : List IODescription) :
    ∀ (tbl t : Dict (Option BufRef)), bindInputs real w tbl nnf = .ok t →
      ∀ d ∈ nnf, dget t d.name = some (expectedBind w d.name) := by
  induction nnf with
  | nil => intro tbl t h d hd; cases hd
  | cons hd0 tl ih =>
    intro tbl t h d hd
    simp only [bindInputs] at h
    cases hr : dget real hd0.name with
    | none => rw [hr] at h; simp only at h; cases h
    | some r =>
      rw [hr] at h
      simp only at h
      by_cases hs : hd0.shape = r.shape
      · by_cases hdt : hd0.dtype = r.dtype
        · rw [if_pos hs, if_pos hdt] at h
          rcases List.mem_cons.mp hd with hdeq | hdtl
          · subst hdeq
            by_cases hin : d.name ∈ tl.map IODescription.name
            · obtain ⟨d2, hd2, hd2n⟩ := List.mem_map.mp hin
              by_cases hw : (dget w d.name).isSome
              · rw [if_pos hw] at h
                have h2 := ih _ _ h d2 hd2
                rw [hd2n] at h2
                exact h2
              · rw [if_neg hw] at h
                have h2 := ih _ _ h d2 hd2
                rw [hd2n] at h2
                exact h2
            · by_cases hw : (dget w d.name).isSome
              · rw [if_pos hw] at h
                rw [bindInputs_frame _ _ _ _ _ h _ hin, dget_dset, if_pos rfl]
                simp [expectedBind, hw]
              · rw [if_neg hw] at h
                rw [bindInputs_frame _ _ _ _ _ h _ hin, dget_dset, if_pos rfl]
                simp [expectedBind, hw]
          · by_cases hw : (dget w hd0.name).isSome
            · rw [if_pos hw] at h
              exact ih _ _ h d hdtl
            · rw [if_neg hw] at h
              exact ih _ _ h d hdtl
        · rw [if_pos hs, if_neg hdt] at h; cases h
      · rw [if_neg hs] at h; cases h

/-- A successful output binding is exactly the allocation fold: one fresh
buffer per artifact output in declaration order. -/
theorem bindOutputs_ok_alloc (tr : Bool) (ri ro : Dict IODescription)
    (outs : List IODescription) :
    ∀ (tbl t : Dict BufRef) (idx : Nat), bindOutputs tr ri ro tbl idx outs = .ok t →
      t = allocFold tbl idx outs := by
  induction outs with
  | nil => intro tbl t idx h; cases h; rfl
  | cons hd tl ih =>
    intro tbl t idx h
    simp only [bindOutputs] at h
    by_cases hmiss : (!tr && (dget ro hd.name).isNone) = true
    · rw [if_pos hmiss] at h; cases h
    · rw [if_neg hmiss] at h
      cases hro : dget ro hd.name with
      | none =>
        rw [hro] at h
        simp only at h
        by_cases hst : (str2type hd.dtype).isNone
        · rw [if_pos hst] at h; cases h
        · rw [if_neg hst] at h
          exact ih _ _ _ h
      | some r =>
        rw [hro] at h
        simp only at h
        by_cases hs : hd.shape = r.shape
        · by_cases hdt : hd.dtype = r.dtype
          · rw [if_pos hs, if_pos hdt] at h
            by_cases hst : (str2type hd.dtype).isNone
            · rw [if_pos hst] at h; cases h
            · rw [if_neg hst] at h
              exact ih _ _ _ h
          · rw [if_pos hs, if_neg hdt] at h; cases h
        · rw [if_neg hs] at h; cases h

/-- A successful result extraction returns one buffer per declared output,
each being exactly the buffer bound under the declared output's name. -/
theorem gatherOutputs_ok (outputs : Dict BufRef) (descs : List IODescription)
    (l : List BufRef) (h : gatherOutputs outputs descs = .ok l) :
    l.length = descs.length ∧
      ∀ i (hi : i < l.length) (hd : i < descs.length),
        dget outputs (descs.get ⟨i, hd⟩).name = some (l.get ⟨i, hi⟩) := by
  induction descs generalizing l with
  | nil =>
    cases h
    exact ⟨rfl, fun i hi _ => absurd hi (by simp)⟩
  | cons d0 tl ih =>
    simp only [gatherOutputs] at h
    cases hb : dget outputs d0.name with
    | none => rw [hb] at h; simp only at h; cases h
    | some b =>
      rw [hb] at h
      simp only at h
      cases hrest : gatherOutputs outputs tl with
      | error e => rw [hrest] at h; simp only at h; cases h
      | ok l2 =>
        rw [hrest] at h
        simp only at h
        cases h
        obtain ⟨hlen, helem⟩ := ih l2 hrest
        refine ⟨by simp [hlen], ?_⟩
        intro i hi hd
        cases i with
        | zero => simpa using hb
        | succ j =>
          simpa using helem j (by simpa using hi) (by simpa using hd)

theorem dget_isSome_mem_keys {α : Type} (d : Dict α) (k : String)
    (h : (dget d k).isSome) : k ∈ d.map Prod.fst := by
  induction d with
  | nil => simp [dget] at h
  | cons hd tl ih =>
    obtain ⟨a, b⟩ := hd
    simp only [dget] at h
    by_cases ha : a = k
    · simp [ha]
    · rw [if_neg ha] at h
      simp [ih h]

/-- A name absent from the feed keeps its binding across the feed loop. -/
theorem dget_feedInputs_of_none (feed : Dict Nat) (tbl : Dict (Option BufRef)) (k : String)
    (hk : dget feed k = none) : dget (feedInputs tbl feed) k = dget tbl k := by
  induction feed generalizing tbl with
  | nil => rfl
  | cons hd tl ih =>
    obtain ⟨n, v⟩ := hd
    simp only [dget] at hk
    by_cases hn : n = k
    · rw [if_pos hn] at hk; cases hk
    · rw [if_neg hn] at hk
      simp only [feedInputs]
      rw [ih _ hk]
      by_cases hmem : (dget tbl n).isSome
      · rw [if_pos hmem, dget_dset, if_neg (fun hh => hn hh.symm)]
      · rw [if_neg hmem]

/-- A fed name that is a key of the input binding table ends up bound to the
fed buffer after the feed loop. -/
theorem dget_feedInputs_of_some (feed : Dict Nat) (tbl : Dict (Option BufRef)) (k : String)
    (v : Nat) (hnd : (feed.map Prod.fst).Nodup) (hk : dget feed k = some v)
    (hmem : (dget tbl k).isSome) :
    dget (feedInputs tbl feed) k = some (some (.extBuf v)) := by
  induction feed generalizing tbl with
  | nil => cases hk
  | cons hd tl ih =>
    obtain ⟨n, w0⟩ := hd
    simp only [List.map_cons, List.nodup_cons] at hnd
    obtain ⟨hn1, hn2⟩ := hnd
    simp only [dget] at hk
    by_cases hn : n = k
    · rw [if_pos hn] at hk
      cases hk
      subst hn
      simp only [feedInputs]
      rw [if_pos hmem]
      have htl : dget tl n = none := by
        cases hdg : dget tl n with
        | none => rfl
        | some u =>
          exact absurd (dget_isSome_mem_keys tl n (by simp [hdg])) hn1
      rw [dget_feedInputs_of_none _ _ _ htl, dget_dset, if_pos rfl]
    · rw [if_neg hn] at hk
      simp only [feedInputs]
      by_cases hm : (dget tbl n).isSome
      · rw [if_pos hm]
        refine ih _ hn2 hk ?_
        rw [dget_dset, if_neg (fun hh => hn hh.symm)]
        exact hmem
      · rw [if_neg hm]
        exact ih _ hn2 hk hmem

theorem is_weights_nan_foldl_acc (ws : Dict PTTensor) (acc : List String × Bool) :
    ws.foldl (fun acc nw => if tensorHasNanOrInf nw.2 then (acc.1 ++ [nw.1], true) else acc)
        acc =
      (acc.1 ++ (ws.filter fun nw => tensorHasNanOrInf nw.2).map Prod.fst,
        acc.2 || ws.any fun nw => tensorHasNanOrInf nw.2) := by
  induction ws generalizing acc with
  | nil => simp
  | cons hd tl ih =>
    simp only [List.foldl_cons, List.filter_cons, List.any_cons]
    by_cases hh : tensorHasNanOrInf hd.2
    · rw [if_pos hh, ih]
      simp [hh]
    · rw [if_neg hh, ih]
      simp [hh]

/-- The weight scan logs exactly the offending names, in order and without
short-circuiting, and reports whether any weight is offending. -/
theorem is_weights_nan_spec (ws : Dict PTTensor) :
    is_weights_nan ws =
      ((ws.filter fun nw => tensorHasNanOrInf nw.2).map Prod.fst,
        ws.any fun nw => tensorHasNanOrInf nw.2) := by
  have h := is_weights_nan_foldl_acc ws ([], false)
  simpa [is_weights_nan] using h

/-- Inversion of a successful executor creation: the device is a cuda device,
the emitted events are exactly the build-pipeline ones, every binding stage
succeeded, the extern_result_memory flag was truthy, and the session is the
record assembled from the binding tables. -/
theorem createExecutor_ok (cfg : SessionConfig) (flags : Dict PyVal)
    (artifact : ArtifactContract) (weights : Dict PTTensor) (od : List IODescription)
    (ev : List Event) (s : Session)
    (h : createExecutor cfg flags artifact weights od = (ev, .ok s)) :
    pyIn "cuda" cfg.device = true ∧
    ev = (if cfg.build_nnf then [Event.codegenRun, Event.patchRt, Event.buildRun] else []) ∧
    ∃ real inTbl outTbl,
      realInputsFor cfg.input_desc weights (truthyFlag flags "training_mode") = .ok real ∧
      bindInputs real weights [] artifact.inputs = .ok inTbl ∧
      truthyFlag flags "extern_result_memory" = true ∧
      bindOutputs (truthyFlag flags "training_mode") real (dictOfDescs od) [] 0
        artifact.outputs = .ok outTbl ∧
      s = { inputs := inTbl, outputs := outTbl, contents := initContents outTbl,
            output_desc := od, torch_weights := weights } := by
  unfold createExecutor at h
  by_cases hcuda : pyIn "cuda" cfg.device = true
  · rw [if_pos hcuda] at h
    have hev := congrArg Prod.fst h
    simp only at hev
    have h2 := congrArg Prod.snd h
    simp only at h2
    refine ⟨hcuda, hev.symm ▸ rfl, ?_⟩
    cases hreal : realInputsFor cfg.input_desc weights (truthyFlag flags "training_mode") with
    | error e => rw [hreal] at h2; simp only at h2; cases h2
    | ok real =>
      rw [hreal] at h2
      simp only at h2
      cases hbind : bindInputs real weights [] artifact.inputs with
      | error e => rw [hbind] at h2; simp only at h2; cases h2
      | ok inTbl =>
        rw [hbind] at h2
        simp only at h2
        cases hext : truthyFlag flags "extern_result_memory" with
        | false =>
          rw [hext] at h2
          simp at h2
        | true =>
          rw [hext] at h2
          simp only [Bool.not_true] at h2
          rw [if_neg (by simp)] at h2
          cases hout : bindOutputs (truthyFlag flags "training_mode") real (dictOfDescs od)
              [] 0 artifact.outputs with
          | error e => rw [hout] at h2; simp only at h2; cases h2
          | ok outTbl =>
            rw [hout] at h2
            simp only at h2
            cases h2
            exact ⟨real, inTbl, outTbl, rfl, hbind, rfl, hout, rfl⟩
  · rw [if_neg hcuda] at h
    by_cases hcpu : pyIn "cpu" cfg.device = true
    · rw [if_pos hcpu] at h; cases h
    · rw [if_neg hcpu] at h
      by_cases hrocm : pyIn "rocm" cfg.device = true
      · rw [if_pos hrocm] at h; cases h
      · rw [if_neg hrocm] at h; cases h

/-- Characterization of the sample synthesizer on a supported dtype: the
value exists, its shape is the descriptor shape with dynamic dimensions
replaced by 1, its dtype is the descriptor dtype's torch rendering, and its
fill is the constant 1 or class indices below num_classes. -/
theorem generate_sample_spec (desc : IODescription) (device : Option String) (rng : Nat → Nat)
    (e : DTypeEntry) (he : str2type desc.dtype = some e) :
    ∃ t, generate_sample desc device rng = some t ∧
      t.shape = desc.shape.map (fun s => match s with | .concrete n => n | .dynamic _ => 1) ∧
      t.dtype = e.torch_type ∧
      t.device = device ∧
      (truthyNumClasses desc.num_classes = false → ∀ v ∈ t.data, v = .intv 1) ∧
      (∀ nc, desc.num_classes = some nc → 0 < nc →
        ∀ v ∈ t.data, ∃ k : Nat, k < nc ∧ v = .intv (k : Int)) := by
  unfold generate_sample
  by_cases htr : truthyNumClasses desc.num_classes = true
  case neg =>
    rw [if_neg htr, he]
    dsimp only
    refine ⟨_, rfl, rfl, rfl, rfl, ?_, ?_⟩
    · intro _ v hv
      simp only [PTTensor.to, torch_ones] at hv
      exact List.eq_of_mem_replicate hv
    · intro nc hnc hpos v _
      rw [hnc] at htr
      simp [truthyNumClasses] at htr
      omega
  case pos =>
    rw [if_pos htr]
    cases hnc : desc.num_classes with
    | none =>
      rw [hnc] at htr
      simp [truthyNumClasses] at htr
    | some nc =>
      rw [he]
      dsimp only
      rw [hnc] at htr
      have hpos : 0 < nc := by
        have h2 := htr
        simp [truthyNumClasses] at h2
        omega
      refine ⟨_, rfl, rfl, rfl, rfl, ?_, ?_⟩
      · intro hfalse
        rw [htr] at hfalse
        cases hfalse
      · intro nc2 hnc2 _ v hv
        cases hnc2
        simp only [PTTensor.to, torch_randint, List.mem_map] at hv
        obtain ⟨i, -, hvi⟩ := hv
        have hb0 : (0 : Int) ≤ (rng i : Int) % ((nc : Int) - 0) := by
          apply Int.emod_nonneg
          omega
        have hb1 : (rng i : Int) % ((nc : Int) - 0) < (nc : Int) - 0 := by
          apply Int.emod_lt_of_pos
          omega
        refine ⟨((rng i : Int) % ((nc : Int) - 0)).toNat, by omega, ?_⟩
        rw [← hvi]
        congr 1
        omega

/-- Mapping a concrete sample shape back through Dim.concrete recovers a
fully-concrete descriptor shape. -/
theorem allConcrete_size_eq (ds : List Dim) (h : allConcrete ds = true) :
    ((ds.map fun s => match s with | .concrete n => n | .dynamic _ => 1).map
      Dim.concrete) = ds := by
  induction ds with
  | nil => rfl
  | cons hd tl ih =>
    simp only [allConcrete, List.all_cons, Bool.and_eq_true] at h
    obtain ⟨h1, h2⟩ := h
    cases hd with
    | concrete n =>
      simp only [List.map_cons]
      rw [ih (by simpa [allConcrete] using h2)]
    | dynamic s2 => cases h1

/-- The dtype table is a round trip: looking up the last dot segment of a
torch dtype rendering recovers the same entry, whose type string is the
original key. -/
theorem str2type_roundtrip (s : String) (e : DTypeEntry) (h : str2type s = some e) :
    str2type (strLastDotSegment e.torch_type) = some e ∧ e.type_str = s := by
  unfold str2type at h
  split at h
  · cases h; exact ⟨rfl, rfl⟩
  · cases h; exact ⟨rfl, rfl⟩
  · cases h; exact ⟨rfl, rfl⟩
  · cases h; exact ⟨rfl, rfl⟩
  · cases h

/-- Sample synthesis succeeds for every supported dtype, one sample per
descriptor. -/
theorem mapOpt_generate_sample_isSome (descs : List IODescription) (device : Option String)
    (rng : Nat → Nat) (h : ∀ d ∈ descs, (str2type d.dtype).isSome) :
    ∃ ts, mapOpt (fun d => generate_sample d device rng) descs = some ts := by
  induction descs with
  | nil => exact ⟨[], rfl⟩
  | cons hd tl ih =>
    obtain ⟨e, he⟩ := Option.isSome_iff_exists.mp (h hd (by simp))
    obtain ⟨t, ht, -⟩ := generate_sample_spec hd device rng e he
    obtain ⟨ts, hts⟩ := ih (fun d hd2 => h d (by simp [hd2]))
    refine ⟨t :: ts, ?_⟩
    simp only [mapOpt, ht, hts]

/-- When the export step succeeded, the events it emitted are exactly one
exporter call when building is enabled and none otherwise. -/
theorem exportStepResult_ok_ev (model : PyModel) (cfg : SessionConfig)
    (od : List IODescription) (rng : Nat → Nat)
    (h : (exportStepResult model cfg od rng).2 = .ok ()) :
    (exportStepResult model cfg od rng).1 =
      if cfg.build_nnf then [Event.exportModel] else [] := by
  by_cases hb : cfg.build_nnf = true
  · rw [if_pos hb]
    unfold exportStepResult at h ⊢
    rw [if_pos hb] at h ⊢
    cases hc : convert_model_to_onnx model ⟨cfg.input_desc, od⟩ cfg.device "nnf.onnx"
        cfg.const_folding rng with
    | none =>
      rw [hc] at h
      simp only at h
      cases h
    | some p => rfl
  · rw [if_neg hb]
    unfold exportStepResult
    rw [if_neg hb]

/-- Unfolding of session construction once the format gate, the output
contract step and the export step have gone through: what remains is the
mutual-exclusion gate and executor creation. -/
theorem sessionInit_after_export (model : PyModel) (cfg : SessionConfig)
    (artifact : ArtifactContract) (rng : Nat → Nat) (od : List IODescription)
    (hfmt : cfg.model_format = "onnx") (hod : outputDescStep model cfg rng = .ok od)
    (hexp : (exportStepResult model cfg od rng).2 = .ok ()) :
    sessionInit model cfg artifact rng =
      if truthyFlag (effFlags cfg) "training_mode" && cfg.const_folding then
        ((exportStepResult model cfg od rng).1, .error .mutualExclusion)
      else
        ((exportStepResult model cfg od rng).1 ++
          (createExecutor cfg (effFlags cfg) artifact (modelWeights model) od).1,
         (createExecutor cfg (effFlags cfg) artifact (modelWeights model) od).2) := by
  unfold sessionInit
  rw [if_neg (by simp [hfmt]), hod]
  dsimp only
  rcases hE : exportStepResult model cfg od rng with ⟨ev1, r⟩
  rw [hE] at hexp
  simp only at hexp
  subst hexp
  rfl

/-- A run call only rebinds the fed inputs and overwrites the output buffer
contents with the artifact's results; every other session component, in
particular the output buffer table, is untouched. -/
theorem run_by_nnf_state (s : Session) (execF : Dict (Option BufRef) → String → Int)
    (feed : Dict Nat) (cn : Bool) :
    (run_by_nnf s execF feed cn).1 =
      { s with inputs := feedInputs s.inputs feed,
               contents := executorInvoke execF (feedInputs s.inputs feed) s.outputs
                 s.contents } := by
  unfold run_by_nnf
  dsimp only
  split <;> split <;> rfl

/-- A run call that returns buffers returned exactly the gathered output
buffers in declared order. -/
theorem run_by_nnf_ok_out (s : Session) (execF : Dict (Option BufRef) → String → Int)
    (feed : Dict Nat) (cn : Bool) (l : List BufRef)
    (h : (run_by_nnf s execF feed cn).2.2 = .ok l) :
    gatherOutputs s.outputs s.output_desc = .ok l := by
  unfold run_by_nnf at h
  cases cn with
  | false => simpa using h
  | true =>
    simp only [if_true, Bool.true_and] at h
    by_cases hw : (is_weights_nan s.torch_weights).2 = true
    · rw [if_pos hw] at h
      cases h
    · rw [if_neg hw] at h
      exact h

/-- A run call with the NaN check enabled raises after the invocation when
the scan is positive. -/
theorem run_by_nnf_nan_err (s : Session) (execF : Dict (Option BufRef) → String → Int)
    (feed : Dict Nat) (h : (is_weights_nan s.torch_weights).2 = true) :
    (run_by_nnf s execF feed true).2.2 = .error .nanFound := by
  unfold run_by_nnf
  dsimp only
  rw [if_pos (by simp [h])]

/-- C1: during session build every artifact-declared input is reconciled
against the union of the caller's input contract with, in training mode, the
weight set: the union holds exactly those names; binding succeeds exactly
when every declared input resolves to a descriptor of identical shape and
dtype; every binding failure names a violating declared entry together with
the offending values; and a caller input the artifact does not consume never
changes the outcome. -/
theorem c1_input_binding (input_desc : List IODescription) (weights : Dict PTTensor)
    (training : Bool) (nnf : List IODescription) (real : Dict IODescription)
    (h : realInputsFor input_desc weights training = .ok real) :
    (∀ n, (dget real n).isSome ↔
        (n ∈ input_desc.map IODescription.name ∨
          (training = true ∧ n ∈ weights.map Prod.fst))) ∧
    ((∃ t, bindInputs real weights [] nnf = .ok t) ↔
      ∀ d ∈ nnf, ∃ r, dget real d.name = some r ∧ d.shape = r.shape ∧ d.dtype = r.dtype) ∧
    (∀ e, bindInputs real weights [] nnf = .error e →
      ∃ d ∈ nnf,
        (dget real d.name = none ∧ e = .missingInput d.name) ∨
        ∃ r, dget real d.name = some r ∧
          ((d.shape ≠ r.shape ∧ e = .inShapeAssert d.name d.shape r.shape) ∨
           (d.shape = r.shape ∧ d.dtype ≠ r.dtype ∧
             e = .inDtypeAssert d.name d.dtype r.dtype))) ∧
    (∀ x : IODescription, x.name ∉ nnf.map IODescription.name →
      bindInputs (dset real x.name x) weights [] nnf = bindInputs real weights [] nnf) :=
  ⟨realInputsFor_names input_desc weights training real h,
   bindInputs_ok_iff real weights [] nnf,
   fun e he => bindInputs_error_char real weights [] nnf e he,
   fun x hx => bindInputs_unconsumed real weights [] nnf x hx⟩

/-- Witness for c1_input_binding: a training-mode session over one caller
input and one weight; the union resolves and binding the two declared inputs
succeeds. -/
theorem c1_input_binding_witness :
    realInputsFor [descX] [("w", weightW)] true = .ok [("x", descX), ("w", descW)] ∧
    (∃ t, bindInputs [("x", descX), ("w", descW)] [("w", weightW)] [] [descX, descW] =
      .ok t) :=
  ⟨by decide,
   ((c1_input_binding [descX] [("w", weightW)] true [descX, descW]
       [("x", descX), ("w", descW)] (by decide)).2.1).mpr (by decide)⟩

/-- C2 counterexample: with extern_result_memory overridden to a falsy value,
session construction does fail fatally with the configuration error, but the
export, codegen, patch and build external steps have all been invoked first,
refuting that the failure happens before any external process runs. -/
theorem c2_counterexample :
    sessionInit modelA cfgExtern artEmpty rngA =
      ([Event.exportModel, Event.codegenRun, Event.patchRt, Event.buildRun],
        .error .externResultMemory) ∧
    Event.exportModel ∈ (sessionInit modelA cfgExtern artEmpty rngA).1 := by
  decide

/-- C2 amended: when the effective extern_result_memory flag is falsy (only
possible by explicitly overriding the truthy default), construction fails
fatally with the configuration error during executor creation — after the
export, codegen, patch and build external steps have run whenever building is
enabled — and before any output buffer is bound. -/
theorem c2_extern_gate (model : PyModel) (cfg : SessionConfig) (artifact : ArtifactContract)
    (rng : Nat → Nat) (od : List IODescription) (real : Dict IODescription)
    (inTbl : Dict (Option BufRef))
    (hfmt : cfg.model_format = "onnx")
    (hod : outputDescStep model cfg rng = .ok od)
    (hexp : (exportStepResult model cfg od rng).2 = .ok ())
    (hmx : ¬(truthyFlag (effFlags cfg) "training_mode" && cfg.const_folding) = true)
    (hdev : pyIn "cuda" cfg.device = true)
    (hreal : realInputsFor cfg.input_desc (modelWeights model)
        (truthyFlag (effFlags cfg) "training_mode") = .ok real)
    (hbind : bindInputs real (modelWeights model) [] artifact.inputs = .ok inTbl)
    (hext : truthyFlag (effFlags cfg) "extern_result_memory" = false) :
    sessionInit model cfg artifact rng =
      ((if cfg.build_nnf then
          [Event.exportModel, Event.codegenRun, Event.patchRt, Event.buildRun]
        else []),
       .error .externResultMemory) := by
  have h1 : (createExecutor cfg (effFlags cfg) artifact (modelWeights model) od).1 =
      if cfg.build_nnf then [Event.codegenRun, Event.patchRt, Event.buildRun] else [] := by
    unfold createExecutor
    rw [if_pos hdev]
  have h2 : (createExecutor cfg (effFlags cfg) artifact (modelWeights model) od).2 =
      .error .externResultMemory := by
    unfold createExecutor
    rw [if_pos hdev]
    dsimp only
    rw [hreal]
    dsimp only
    rw [hbind]
    dsimp only
    rw [hext]
    simp
  rw [sessionInit_after_export model cfg artifact rng od hfmt hod hexp, if_neg hmx,
    Prod.ext_iff]
  refine ⟨?_, h2⟩
  show (exportStepResult model cfg od rng).1 ++
      (createExecutor cfg (effFlags cfg) artifact (modelWeights model) od).1 = _
  rw [exportStepResult_ok_ev model cfg od rng hexp, h1]
  by_cases hb : cfg.build_nnf = true <;> simp [hb]

/-- Witness for c2_extern_gate: the concrete overridden-flag session. -/
theorem c2_extern_gate_witness :
    truthyFlag (effFlags cfgExtern) "extern_result_memory" = false ∧
    sessionInit modelA cfgExtern artEmpty rngA =
      ((if cfgExtern.build_nnf then
          [Event.exportModel, Event.codegenRun, Event.patchRt, Event.buildRun] else []),
       .error .externResultMemory) :=
  ⟨by decide,
   c2_extern_gate modelA cfgExtern artEmpty rngA [] [] [] (by decide) (by decide)
     (by decide) (by decide) (by decide) (by decide) (by decide) (by decide)⟩

/-- C3 counterexample: with training mode and constant folding both enabled,
construction does fail with the mutual-exclusion configuration error, but the
exporter has already been invoked first, refuting that the failure happens
before any export attempt. -/
theorem c3_counterexample :
    sessionInit modelA cfgFold artEmpty rngA = ([Event.exportModel], .error .mutualExclusion) ∧
    Event.exportModel ∈ (sessionInit modelA cfgFold artEmpty rngA).1 := by
  decide

/-- C3 amended: when training mode and constant folding are both enabled,
session construction fails with the mutual-exclusion configuration error
after the export step (which runs first whenever building is enabled) and
before the codegen, patch and build external steps. -/
theorem c3_mutual_exclusion_gate (model : PyModel) (cfg : SessionConfig)
    (artifact : ArtifactContract) (rng : Nat → Nat) (od : List IODescription)
    (hfmt : cfg.model_format = "onnx")
    (hod : outputDescStep model cfg rng = .ok od)
    (hexp : (exportStepResult model cfg od rng).2 = .ok ())
    (hmx : (truthyFlag (effFlags cfg) "training_mode" && cfg.const_folding) = true) :
    sessionInit model cfg artifact rng =
      ((if cfg.build_nnf then [Event.exportModel] else []), .error .mutualExclusion) := by
  rw [sessionInit_after_export model cfg artifact rng od hfmt hod hexp, if_pos hmx,
    exportStepResult_ok_ev model cfg od rng hexp]

/-- Witness for c3_mutual_exclusion_gate: the concrete conflicting-flags
session. -/
theorem c3_mutual_exclusion_gate_witness :
    (truthyFlag (effFlags cfgFold) "training_mode" && cfgFold.const_folding) = true ∧
    sessionInit modelA cfgFold artEmpty rngA =
      ((if cfgFold.build_nnf then [Event.exportModel] else []), .error .mutualExclusion) :=
  ⟨by decide,
   c3_mutual_exclusion_gate modelA cfgFold artEmpty rngA [] (by decide) (by decide)
     (by decide) (by decide)⟩

/-- C4: run is buffer-stable and order-preserving: the output buffers are
allocated once at executor creation (one per artifact output, indices in
declaration order), any run call leaves the buffer table and the declared
output contract untouched, and any two successive run calls with arbitrary
feeds and flags return equal buffer lists, each entry being exactly the
buffer bound to the corresponding declared output of the caller contract, in
declared order. -/
theorem c4_run_buffer_stability (cfg : SessionConfig) (flags : Dict PyVal)
    (artifact : ArtifactContract) (weights : Dict PTTensor) (od : List IODescription)
    (ev : List Event) (s : Session)
    (h : createExecutor cfg flags artifact weights od = (ev, .ok s))
    (execF1 execF2 : Dict (Option BufRef) → String → Int) (feed1 feed2 : Dict Nat)
    (cn1 cn2 : Bool) :
    s.outputs = allocFold [] 0 artifact.outputs ∧
    s.output_desc = od ∧
    (run_by_nnf s execF1 feed1 cn1).1.outputs = s.outputs ∧
    (run_by_nnf s execF1 feed1 cn1).1.output_desc = s.output_desc ∧
    (∀ l1 l2,
      (run_by_nnf s execF1 feed1 cn1).2.2 = .ok l1 →
      (run_by_nnf (run_by_nnf s execF1 feed1 cn1).1 execF2 feed2 cn2).2.2 = .ok l2 →
      l1 = l2 ∧ l1.length = od.length ∧
        ∀ i (hi : i < l1.length) (hd2 : i < od.length),
          dget s.outputs (od.get ⟨i, hd2⟩).name = some (l1.get ⟨i, hi⟩)) := by
  obtain ⟨-, -, real, inTbl, outTbl, -, -, -, hout, hs⟩ :=
    createExecutor_ok cfg flags artifact weights od ev s h
  subst hs
  refine ⟨bindOutputs_ok_alloc _ _ _ _ _ _ _ hout, rfl, ?_, ?_, ?_⟩
  · rw [run_by_nnf_state]
  · rw [run_by_nnf_state]
  · intro l1 l2 h1 h2
    have g1 := run_by_nnf_ok_out _ _ _ _ _ h1
    have g2 := run_by_nnf_ok_out _ _ _ _ _ h2
    rw [run_by_nnf_state] at g2
    have hl : l1 = l2 := by
      rw [g1] at g2
      cases g2
      rfl
    obtain ⟨hlen, helem⟩ := gatherOutputs_ok _ _ _ g1
    exact ⟨hl, hlen, helem⟩

/-- Witness for c4_run_buffer_stability: the concrete one-input one-weight
one-output session run twice with different feeds. -/
theorem c4_run_buffer_stability_witness :
    createExecutor cfgRun (effFlags cfgRun) artRun [("w", weightW)] [descY] =
      ([], .ok sessRun) ∧
    (∀ l1 l2,
      (run_by_nnf sessRun execFA [("x", 100)] false).2.2 = .ok l1 →
      (run_by_nnf (run_by_nnf sessRun execFA [("x", 100)] false).1 execFA
        [("x", 200)] false).2.2 = .ok l2 →
      l1 = l2 ∧ l1.length = [descY].length ∧
        ∀ i (hi : i < l1.length) (hd2 : i < [descY].length),
          dget sessRun.outputs ([descY].get ⟨i, hd2⟩).name = some (l1.get ⟨i, hi⟩)) :=
  ⟨by decide,
   (c4_run_buffer_stability cfgRun (effFlags cfgRun) artRun [("w", weightW)] [descY] []
     sessRun (by decide) execFA execFA [("x", 100)] [("x", 200)] false false).2.2.2.2⟩

/-- C9: the weight scan examines every weight buffer without
short-circuiting, logging exactly the offending names in order, and returns
true exactly when some weight holds a NaN or infinite value; and a run call
with the diagnostic-fatal policy enabled raises only after the artifact
invocation has completed, the output buffer contents already holding the
artifact's results. -/
theorem c9_nan_scan (s : Session) (execF : Dict (Option BufRef) → String → Int)
    (feed : Dict Nat) :
    ((is_weights_nan s.torch_weights).2 =
      (s.torch_weights.any fun nw => tensorHasNanOrInf nw.2)) ∧
    ((is_weights_nan s.torch_weights).2 = true ↔
      ∃ nw ∈ s.torch_weights, tensorHasNanOrInf nw.2 = true) ∧
    ((is_weights_nan s.torch_weights).1 =
      (s.torch_weights.filter fun nw => tensorHasNanOrInf nw.2).map Prod.fst) ∧
    ((s.torch_weights.any fun nw => tensorHasNanOrInf nw.2) = true →
      (run_by_nnf s execF feed true).2.2 = .error .nanFound ∧
      (run_by_nnf s execF feed true).1.contents =
        executorInvoke execF (feedInputs s.inputs feed) s.outputs s.contents) := by
  have hspec := is_weights_nan_spec s.torch_weights
  refine ⟨by rw [hspec], ?_, by rw [hspec], ?_⟩
  · rw [hspec]
    simp [List.any_eq_true]
  · intro hnan
    refine ⟨run_by_nnf_nan_err s execF feed (by rw [hspec]; exact hnan), ?_⟩
    rw [run_by_nnf_state]

/-- Witness for c9_nan_scan: a session holding one NaN weight, one finite
weight and one infinite weight; the run raises while the output contents
still received the artifact's results. -/
theorem c9_nan_scan_witness :
    (sessNan.torch_weights.any fun nw => tensorHasNanOrInf nw.2) = true ∧
    ((run_by_nnf sessNan execFA [] true).2.2 = .error .nanFound ∧
     (run_by_nnf sessNan execFA [] true).1.contents =
       executorInvoke execFA (feedInputs sessNan.inputs []) sessNan.outputs
         sessNan.contents) :=
  ⟨by decide, (c9_nan_scan sessNan execFA []).2.2.2 (by decide)⟩

/-- C10: at session build, every artifact-declared input whose name is a
model weight or buffer name is bound directly to the live weight buffer even
with training mode disabled, while every other declared input starts unbound
and becomes bound to the fed buffer by the first run call that supplies
it. -/
theorem c10_weight_binding (cfg : SessionConfig) (flags : Dict PyVal)
    (artifact : ArtifactContract) (weights : Dict PTTensor) (od : List IODescription)
    (ev : List Event) (s : Session)
    (htr : truthyFlag flags "training_mode" = false)
    (h : createExecutor cfg flags artifact weights od = (ev, .ok s)) :
    (∀ d ∈ artifact.inputs,
      dget s.inputs d.name = some (expectedBind weights d.name)) ∧
    (∀ d ∈ artifact.inputs, (dget weights d.name).isSome = true →
      dget s.inputs d.name = some (some (.weightBuf d.name))) ∧
    (∀ d ∈ artifact.inputs, dget weights d.name = none →
      dget s.inputs d.name = some none) ∧
    (∀ d ∈ artifact.inputs, ∀ execF feed cn bid,
      (feed.map Prod.fst).Nodup → dget feed d.name = some bid →
      dget (run_by_nnf s execF feed cn).1.inputs d.name = some (some (.extBuf bid))) := by
  obtain ⟨-, -, real, inTbl, outTbl, -, hbind, -, -, hs⟩ :=
    createExecutor_ok cfg flags artifact weights od ev s h
  subst hs
  have hval : ∀ d ∈ artifact.inputs,
      dget inTbl d.name = some (expectedBind weights d.name) :=
    fun d hd => bindInputs_values real weights artifact.inputs [] inTbl hbind d hd
  refine ⟨hval, ?_, ?_, ?_⟩
  · intro d hd hw
    have h2 := hval d hd
    rw [expectedBind, if_pos hw] at h2
    exact h2
  · intro d hd hw
    have h2 := hval d hd
    rw [expectedBind, if_neg (by simp [hw])] at h2
    exact h2
  · intro d hd execF feed cn bid hnd hfeed
    rw [run_by_nnf_state]
    show dget (feedInputs inTbl feed) d.name = _
    rw [dget_feedInputs_of_some feed inTbl d.name bid hnd hfeed
      (by rw [hval d hd]; rfl)]

/-- Witness for c10_weight_binding: in the concrete session the weight-named
artifact input w is bound to the live weight buffer with training mode off,
the plain input x starts unbound, and a run feeding x binds it. -/
theorem c10_weight_binding_witness :
    truthyFlag (effFlags cfgRun) "training_mode" = false ∧
    (dget sessRun.inputs "w" = some (some (.weightBuf "w")) ∧
     dget sessRun.inputs "x" = some none ∧
     dget (run_by_nnf sessRun execFA [("x", 5)] false).1.inputs "x" =
       some (some (.extBuf 5))) := by
  have happ := c10_weight_binding cfgRun (effFlags cfgRun) artRun [("w", weightW)] [descY]
    [] sessRun (by decide) (by decide)
  refine ⟨by decide, ?_, ?_, ?_⟩
  · exact happ.2.1 descW (by decide) (by decide)
  · exact happ.2.2.1 descX (by decide) (by decide)
  · exact happ.2.2.2 descX (by decide) execFA [("x", 5)] false 5 (by decide) (by decide)

/-- C5 counterexample: export moves the caller's original model to the
target device in place: after convert_model_to_onnx the original model
object's device placement is the target device, no longer its prior one, so
the original is observably affected by export. -/
theorem c5_counterexample :
    ((convert_model_to_onnx modelA ⟨[], []⟩ "cuda:0" "nnf.onnx" false rngA).map
      fun p => p.1.device) = some "cuda:0" ∧
    modelA.device = "cpu" := ⟨rfl, rfl⟩

/-- C5 amended: contract inference operates only on a deep-copied snapshot
and returns the caller's model unchanged; export hands the exporter a deep
copy, isolating exporter side effects, but first moves the caller's original
model to the target device in place, so the final state of the original is
the model with exactly its device placement changed. -/
theorem c5_model_isolation (model : PyModel) (md : ModelDescription) (device : String)
    (fn : String) (cf : Bool) (rng : Nat → Nat) (input_desc : List IODescription)
    (hin : ∀ d ∈ md.inputs, (str2type d.dtype).isSome)
    (hout : ∀ d ∈ md.outputs, (str2type d.dtype).isSome) :
    (∃ rec, convert_model_to_onnx model md device fn cf rng =
        some ({ model with device := device }, rec) ∧
      rec.exported_model = deepcopy { model with device := device }) ∧
    (∀ p, generate_output_desc model input_desc device rng = some p → p.1 = model) := by
  constructor
  · obtain ⟨ti, hti⟩ := mapOpt_generate_sample_isSome md.inputs (some device) rng hin
    obtain ⟨to2, hto2⟩ := mapOpt_generate_sample_isSome md.outputs (some device) rng hout
    refine ⟨{ exported_model := deepcopy (moduleTo model device), file_name := fn,
              input_names := md.inputs.map IODescription.name,
              output_names := md.outputs.map IODescription.name,
              sample_inputs := ti, sample_outputs := to2,
              do_constant_folding := cf }, ?_, rfl⟩
    unfold convert_model_to_onnx
    rw [hti]
    dsimp only
    rw [hto2]
    simp only
    rfl
  · intro p hp
    unfold generate_output_desc at hp
    cases hfi : mapOpt (fun d => generate_sample d (some device) rng) input_desc with
    | none => rw [hfi] at hp; simp only at hp; cases hp
    | some fi =>
      rw [hfi] at hp
      simp only at hp
      cases hds : mapOpt
          (fun it => tensor2desc it.2 ("output_" ++ toString it.1))
          (tupleOfOut ((moduleTo (deepcopy model) device).forward fi)).enum with
      | none => rw [hds] at hp; simp only at hp; cases hp
      | some ds =>
        rw [hds] at hp
        simp only at hp
        cases hp
        rfl

/-- Witness for c5_model_isolation: a one-input one-output contract on the
plain model; inference leaves the model untouched. -/
theorem c5_model_isolation_witness :
    (∀ d ∈ (⟨[descX], [descY]⟩ : ModelDescription).inputs, (str2type d.dtype).isSome) ∧
    (∀ p, generate_output_desc modelA [descX] "cuda:0" rngA = some p → p.1 = modelA) :=
  ⟨by decide,
   (c5_model_isolation modelA ⟨[descX], [descY]⟩ "cuda:0" "nnf.onnx" false rngA [descX]
     (by decide) (by decide)).2⟩

/-- C6 is violated by the code: the output-mismatch messages read the inputs
dict under the output name.  At this concrete session, whose caller output y
disagrees with the artifact's declared shape while y is not an input name,
constructing the message itself raises KeyError for y — the failure names no
expected and actual shapes at all; and when the name does resolve in the
inputs dict, the dtype-mismatch message carries two shapes (the second taken
from the inputs dict) instead of the dtypes. -/
theorem c6_output_message_bug :
    sessionInit modelA cfgMismatch artMismatch rngA = ([], .error (.keyError "y")) ∧
    outputShapeErr (dictOfDescs [descX]) descY3 = .keyError "y" ∧
    outputDtypeErr [("y", descX)] descY3 = .outDtypeAssert "y" descY3.shape descX.shape := by
  decide

/-- C7 counterexample: a descriptor with a dynamic dimension synthesizes a
sample of concrete shape [1], which does not match the descriptor's shape
exactly. -/
theorem c7_counterexample :
    ((generate_sample descDyn none rngA).map fun t => t.shape) = some [1] ∧
    ((generate_sample descDyn none rngA).map
      fun t => shapeMatchesExactly descDyn.shape t.shape) = some false := by
  decide

/-- C7 amended: for every descriptor with a supported dtype, synthesize
produces a value whose dtype is the descriptor dtype's torch rendering and
whose shape is the descriptor's shape with each dynamic dimension replaced
by 1 — hence exactly the descriptor's shape whenever all dimensions are
concrete; a truthy num_classes gives a fill of integers drawn below
num_classes, otherwise the fill is the constant 1. -/
theorem c7_synthesize_contract (desc : IODescription) (device : Option String)
    (rng : Nat → Nat) (e : DTypeEntry) (he : str2type desc.dtype = some e) :
    ∃ t, generate_sample desc device rng = some t ∧
      t.shape = desc.shape.map (fun s => match s with | .concrete n => n | .dynamic _ => 1) ∧
      (allConcrete desc.shape = true → shapeMatchesExactly desc.shape t.shape = true) ∧
      t.dtype = e.torch_type ∧
      (truthyNumClasses desc.num_classes = false → ∀ v ∈ t.data, v = .intv 1) ∧
      (∀ nc, desc.num_classes = some nc → 0 < nc →
        ∀ v ∈ t.data, ∃ k : Nat, k < nc ∧ v = .intv (k : Int)) := by
  obtain ⟨t, ht, hsh, hdt, hdev, h1, h2⟩ := generate_sample_spec desc device rng e he
  refine ⟨t, ht, hsh, ?_, hdt, h1, h2⟩
  intro hc
  rw [shapeMatchesExactly, hsh]
  simp [allConcrete_size_eq desc.shape hc]

/-- Witness for c7_synthesize_contract: the concrete categorical int64
descriptor with three classes. -/
theorem c7_synthesize_contract_witness :
    str2type descCls.dtype = some ⟨"torch.int64", "int64"⟩ ∧
    (∃ t, generate_sample descCls none rngA = some t ∧
      t.shape = descCls.shape.map
        (fun s => match s with | .concrete n => n | .dynamic _ => 1) ∧
      (allConcrete descCls.shape = true →
        shapeMatchesExactly descCls.shape t.shape = true) ∧
      t.dtype = DTypeEntry.torch_type ⟨"torch.int64", "int64"⟩ ∧
      (truthyNumClasses descCls.num_classes = false → ∀ v ∈ t.data, v = .intv 1) ∧
      (∀ nc, descCls.num_classes = some nc → 0 < nc →
        ∀ v ∈ t.data, ∃ k : Nat, k < nc ∧ v = .intv (k : Int))) :=
  ⟨by decide, c7_synthesize_contract descCls none rngA ⟨"torch.int64", "int64"⟩ (by decide)⟩

theorem enumFrom_get {α : Type} (l : List α) :
    ∀ (n i : Nat) (h : i < (List.enumFrom n l).length) (h2 : i < l.length),
      (List.enumFrom n l).get ⟨i, h⟩ = (n + i, l.get ⟨i, h2⟩) := by
  induction l with
  | nil =>
    intro n i h h2
    exact absurd h2 (by simp)
  | cons hd tl ih =>
    intro n i h h2
    cases i with
    | zero => simp [List.enumFrom]
    | succ j =>
      simp only [List.enumFrom, List.get_cons_succ]
      rw [ih (n + 1) j (by simpa [List.enumFrom] using h) (by simpa using h2)]
      congr 1
      omega

theorem expectedOutputs_get (l : List IODescription) (i : Nat)
    (hi : i < (expectedOutputs l).length) (hj : i < l.length) :
    (expectedOutputs l).get ⟨i, hi⟩ =
      { name := "output_" ++ toString i, shape := (l.get ⟨i, hj⟩).shape,
        dtype := (l.get ⟨i, hj⟩).dtype, num_classes := none } := by
  unfold expectedOutputs at hi ⊢
  rw [List.get_map]
  have henum : (List.enum l).get
      ⟨i, by simpa [List.enum_length] using hj⟩ = (0 + i, l.get ⟨i, hj⟩) :=
    enumFrom_get l 0 i (by simpa [List.enum_length] using hj) hj
  rw [henum]
  simp

/-- On samples generated from supported, fully-concrete descriptors, wrapping
the identity model's outputs recovers one descriptor per input, named by the
enumeration index and carrying the input's shape and dtype. -/
theorem identity_pipeline (input_desc : List IODescription) (device : String)
    (rng : Nat → Nat) :
    ∀ (n : Nat) (ts : List PTTensor),
      (∀ d ∈ input_desc, (str2type d.dtype).isSome) →
      (∀ d ∈ input_desc, allConcrete d.shape = true) →
      mapOpt (fun d => generate_sample d (some device) rng) input_desc = some ts →
      mapOpt (fun it => tensor2desc it.2 ("output_" ++ toString it.1))
          (List.enumFrom n ts) =
        some ((List.enumFrom n input_desc).map fun it =>
          { name := "output_" ++ toString it.1, shape := it.2.shape, dtype := it.2.dtype,
            num_classes := none }) := by
  induction input_desc with
  | nil =>
    intro n ts _ _ hts
    cases hts
    rfl
  | cons d0 tl ih =>
    intro n ts hdt hcc hts
    simp only [mapOpt] at hts
    cases hgen : generate_sample d0 (some device) rng with
    | none =>
      rw [hgen] at hts
      simp only at hts
      cases hts
    | some t0 =>
      rw [hgen] at hts
      simp only at hts
      cases hrest : mapOpt (fun d => generate_sample d (some device) rng) tl with
      | none =>
        rw [hrest] at hts
        simp only at hts
        cases hts
      | some ts0 =>
        rw [hrest] at hts
        simp only at hts
        cases hts
        obtain ⟨e, he⟩ := Option.isSome_iff_exists.mp (hdt d0 (by simp))
        obtain ⟨t, ht, hsh, hdty, -, -, -⟩ := generate_sample_spec d0 (some device) rng e he
        rw [ht] at hgen
        cases hgen
        obtain ⟨hrt, hts2⟩ := str2type_roundtrip d0.dtype e he
        have htd : tensor2desc t0 ("output_" ++ toString n) =
            some { name := "output_" ++ toString n, shape := d0.shape, dtype := d0.dtype,
                   num_classes := none } := by
          unfold tensor2desc
          rw [hdty, hrt]
          dsimp only
          rw [hsh, allConcrete_size_eq d0.shape (hcc d0 (by simp)), hts2]
        simp only [List.enumFrom, mapOpt, List.map_cons]
        rw [htd]
        dsimp only
        rw [ih (n + 1) ts0 (fun d hd => hdt d (by simp [hd]))
          (fun d hd => hcc d (by simp [hd])) hrest]

/-- C8 amended: for every input contract of supported dtypes and fully
concrete shapes, output contract inference on the identity model returns the
contract expectedOutputs: one descriptor per input, named output_i by
position, with exactly the input's shape and dtype, and the caller's model
is returned unchanged.  (With a dynamic input dimension, the sample's
concrete size 1 appears in the output shape instead — see the
counterexample.) -/
theorem c8_identity_inference (input_desc : List IODescription) (device : String)
    (mdevice : String) (rng : Nat → Nat)
    (hdt : ∀ d ∈ input_desc, (str2type d.dtype).isSome)
    (hcc : ∀ d ∈ input_desc, allConcrete d.shape = true) :
    generate_output_desc (identityModel mdevice) input_desc device rng =
      some (identityModel mdevice, expectedOutputs input_desc) ∧
    (expectedOutputs input_desc).length = input_desc.length ∧
    ∀ i (hi : i < (expectedOutputs input_desc).length) (hj : i < input_desc.length),
      (expectedOutputs input_desc).get ⟨i, hi⟩ =
        { name := "output_" ++ toString i,
          shape := (input_desc.get ⟨i, hj⟩).shape,
          dtype := (input_desc.get ⟨i, hj⟩).dtype, num_classes := none } := by
  obtain ⟨ts, hts⟩ := mapOpt_generate_sample_isSome input_desc (some device) rng hdt
  have hpipe := identity_pipeline input_desc device rng 0 ts hdt hcc hts
  refine ⟨?_, by simp [expectedOutputs, List.enum_length], expectedOutputs_get input_desc⟩
  unfold generate_output_desc
  rw [hts]
  dsimp only
  rw [show (tupleOfOut ((moduleTo (deepcopy (identityModel mdevice)) device).forward
      ts)).enum = List.enumFrom 0 ts from rfl]
  rw [hpipe]
  rfl

/-- C8 counterexample: on a contract with a dynamic input dimension,
identity-model inference yields an output descriptor with the concrete shape
the sampler substituted, which differs from the input descriptor's shape. -/
theorem c8_counterexample :
    ((generate_output_desc (identityModel "cpu") [descDyn] "cpu" rngA).map
      fun p => p.2.map IODescription.shape) = some [[Dim.concrete 1]] ∧
    [Dim.concrete 1] ≠ descDyn.shape := by
  decide

/-- Witness for c8_identity_inference: the concrete two-input concrete-shape
contract. -/
theorem c8_identity_inference_witness :
    (∀ d ∈ [descX, descCls], (str2type d.dtype).isSome) ∧
    generate_output_desc (identityModel "cpu") [descX, descCls] "cuda:0" rngA =
      some (identityModel "cpu", expectedOutputs [descX, descCls]) :=
  ⟨by decide,
   (c8_identity_inference [descX, descCls] "cuda:0" "cpu" rngA (by decide) (by decide)).1⟩

end NNF
